import Mathlib

/-!
Verification development for the mini-mandelbrot renderer.

The definitions below are a shallow embedding of the C source
(`src/unnamed/part_000`).  C `int` arithmetic is modelled by `Int` with
truncating division (`Int.tdiv`, the C `/` semantics) and conversion to
`uint8_t` modelled by reduction modulo 256 (`Int.emod`).  The
arbitrary-precision (`mpfr`) coordinate arithmetic is modelled by exact
rationals; the raster is a function from flat pixel index to pixel value.
-/

namespace MiniMandelbrot

/-! ### Window and generation parameters (the `#define` constants) -/

def WIDTH : Nat := 1366
def HEIGHT : Nat := 768
def MBR_MAX_ITERATIONS : Nat := 256
def MBR_DIVERGE_THRESHOLD : ℚ := 4
def THR_MAX_ACTIVE : Nat := 4

/-! ### Pixels (`typedef struct _pixel`), bytes stored as `Nat` values -/

structure pixel where
  r : Nat
  g : Nat
  b : Nat
  a : Nat
deriving DecidableEq, Repr

def pix_white : pixel := ⟨0xFF, 0xFF, 0xFF, 0xFF⟩
def pix_black : pixel := ⟨0x00, 0x00, 0x00, 0x00⟩

/-- C conversion of an `int` value to `uint8_t`: reduce modulo 256. -/
def toByte (x : Int) : Nat := (x.emod 256).toNat

/-! ### `get_color` (part_000 lines 396-418)

`seg_size = MBR_MAX_ITERATIONS / 3` with C integer division; all channel
expressions use C `int` arithmetic (truncating division) and are then stored
into `uint8_t` fields.  The struct is zero-initialized, so channels that a
branch does not assign are 0, and alpha is always 0 except never set. -/

def seg_size : Int := (MBR_MAX_ITERATIONS : Int).tdiv 3

def get_color (ind : Int) : pixel :=
  if ind = (MBR_MAX_ITERATIONS : Int) then pix_black
  else if seg_size * 2 ≤ ind then
    ⟨0, 0, toByte (0xFF - ((ind - seg_size * 3) * 0xFF).tdiv seg_size), 0⟩
  else if seg_size ≤ ind then
    ⟨0, toByte (0xFF - ((ind - seg_size * 2) * 0xFF).tdiv seg_size),
        toByte (((ind - seg_size * 2) * 0xFF).tdiv seg_size), 0⟩
  else
    ⟨toByte (0xFF - ((ind - seg_size) * 0xFF).tdiv seg_size),
        toByte (((ind - seg_size) * 0xFF).tdiv seg_size), 0, 0⟩

set_option maxRecDepth 4000 in
/-- C4: the color mapper is total, maps the bounded outcome
(`ind = MBR_MAX_ITERATIONS`) to solid black `{0,0,0,0}`, and for every
divergence index `n ∈ [0, 256)` never produces the `WHITE` sentinel
`{255,255,255,255}`. -/
theorem C4_palette_round_trip :
    get_color (MBR_MAX_ITERATIONS : Int) = pix_black ∧
      ∀ n : Nat, n < MBR_MAX_ITERATIONS → get_color (n : Int) ≠ pix_white := by
  decide

/-- Witness for C4 at concrete inputs `256` and `0`. -/
theorem C4_palette_round_trip_witness :
    get_color (MBR_MAX_ITERATIONS : Int) = pix_black ∧
      get_color ((0 : Nat) : Int) ≠ pix_white :=
  ⟨C4_palette_round_trip.1, C4_palette_round_trip.2 0 (by decide)⟩

set_option maxRecDepth 4000 in
/-- C5: for every `n ∈ [0, M)` with `S = M/3 = 85` the color mapper computes
exactly the literal band arithmetic, channel values stored as bytes:
band 0 `[0,S)` uses offset `n−S`, band 1 `[S,2S)` uses offset `n−2S`,
band 2 `[2S,M)` uses offset `n−3S` (blue only). -/
theorem C5_band_arithmetic :
    ∀ n : Nat, n < MBR_MAX_ITERATIONS →
      ((n < 85 →
          get_color (n : Int) =
            ⟨toByte (255 - (((n : Int) - 85) * 255).tdiv 85),
             toByte ((((n : Int) - 85) * 255).tdiv 85), 0, 0⟩) ∧
        (85 ≤ n → n < 170 →
          get_color (n : Int) =
            ⟨0, toByte (255 - (((n : Int) - 170) * 255).tdiv 85),
             toByte ((((n : Int) - 170) * 255).tdiv 85), 0⟩) ∧
        (170 ≤ n →
          get_color (n : Int) =
            ⟨0, 0, toByte (255 - (((n : Int) - 255) * 255).tdiv 85), 0⟩)) := by
  decide

/-- Witness for C5 at concrete inputs inside each of the three bands. -/
theorem C5_band_arithmetic_witness :
    get_color ((0 : Nat) : Int) =
        ⟨toByte (255 - (((0 : Int) - 85) * 255).tdiv 85),
         toByte ((((0 : Int) - 85) * 255).tdiv 85), 0, 0⟩ ∧
      get_color ((100 : Nat) : Int) =
        ⟨0, toByte (255 - (((100 : Int) - 170) * 255).tdiv 85),
         toByte ((((100 : Int) - 170) * 255).tdiv 85), 0⟩ ∧
      get_color ((200 : Nat) : Int) =
        ⟨0, 0, toByte (255 - (((200 : Int) - 255) * 255).tdiv 85), 0⟩ :=
  ⟨(C5_band_arithmetic 0 (by decide)).1 (by decide),
   (C5_band_arithmetic 100 (by decide)).2.1 (by decide) (by decide),
   (C5_band_arithmetic 200 (by decide)).2.2 (by decide)⟩

/-! ### Viewport bounds and the default view

The four `mpfr_t` globals `bound_left`, `bound_right`, `bound_top`,
`bound_bottom`; arbitrary-precision values modelled as exact rationals. -/

structure Viewport where
  left : ℚ
  right : ℚ
  top : ℚ
  bottom : ℚ
deriving DecidableEq

/-- Default bounds `BOUND_LEFT/RIGHT/TOP/BOTTOM` as set in `main`
(lines 103-106). -/
def vp_default : Viewport := ⟨-5/2, 1, 1, -1⟩

/-! ### Per-pixel complex coordinate (part_000 lines 330-337)

`inp.r = (right-left) * (x/(WIDTH-1)) + left`,
`inp.i = (top-bottom) * (y/(HEIGHT-1)) + bottom`. -/

def pixelCoord (vp : Viewport) (x y : Nat) : ℚ × ℚ :=
  ((vp.right - vp.left) * ((x : ℚ) / ((WIDTH : ℚ) - 1)) + vp.left,
   (vp.top - vp.bottom) * ((y : ℚ) / ((HEIGHT : ℚ) - 1)) + vp.bottom)

/-! ### Escape-time loop (part_000 lines 339-370)

`cur` starts at `(0,0)`.  Each loop pass first computes
`dist = zr*zr + zi*zi` and tests `dist ≥ MBR_DIVERGE_THRESHOLD`, breaking
with the current loop index `i` if so, and otherwise performs the update
`z ← (zr² − zi² + cr, 2·zr·zi + ci)`.  When the loop runs to completion the
index is `MBR_MAX_ITERATIONS` (colored black by `get_color`). -/

def sqnorm (z : ℚ × ℚ) : ℚ := z.1 * z.1 + z.2 * z.2

def mstep (c z : ℚ × ℚ) : ℚ × ℚ :=
  (z.1 * z.1 - z.2 * z.2 + c.1, z.1 * z.2 * 2 + c.2)

/-- The mathematical orbit `z_0 = (0,0)`, `z_{n+1} = z_n² + c`. -/
def zseq (c : ℚ × ℚ) : Nat → ℚ × ℚ
  | 0 => (0, 0)
  | n + 1 => mstep c (zseq c n)

/-- The `for (i = 0; i < MBR_MAX_ITERATIONS; ++i)` loop: `fuel` is the
number of remaining passes, `z` the current value of `cur`, `i` the loop
counter; the result is the value of `i` when the loop exits. -/
def mandelLoop (c : ℚ × ℚ) : Nat → ℚ × ℚ → Nat → Nat
  | 0, _, i => i
  | fuel + 1, z, i =>
      if MBR_DIVERGE_THRESHOLD ≤ sqnorm z then i
      else mandelLoop c fuel (mstep c z) (i + 1)

/-- The loop index with which `compute_mandelbrot_sub`'s inner loop exits
for the complex constant `c`; this is the value passed to `get_color`. -/
def escapeIndex (c : ℚ × ℚ) : Nat :=
  mandelLoop c MBR_MAX_ITERATIONS (0, 0) 0

lemma mandelLoop_spec (c : ℚ × ℚ) :
    ∀ fuel i, i ≤ mandelLoop c fuel (zseq c i) i ∧
      mandelLoop c fuel (zseq c i) i ≤ i + fuel ∧
      (∀ k, i ≤ k → k < mandelLoop c fuel (zseq c i) i →
        sqnorm (zseq c k) < MBR_DIVERGE_THRESHOLD) ∧
      (mandelLoop c fuel (zseq c i) i < i + fuel →
        MBR_DIVERGE_THRESHOLD ≤ sqnorm (zseq c (mandelLoop c fuel (zseq c i) i))) := by
  intro fuel
  induction fuel with
  | zero =>
      intro i
      refine ⟨le_refl i, by simp [mandelLoop], ?_, ?_⟩
      · intro k hik hk
        simp [mandelLoop] at hk
        omega
      · intro h
        simp [mandelLoop] at h
  | succ fuel ih =>
      intro i
      by_cases hdiv : MBR_DIVERGE_THRESHOLD ≤ sqnorm (zseq c i)
      · have hloop : mandelLoop c (fuel + 1) (zseq c i) i = i := by
          simp [mandelLoop, hdiv]
        refine ⟨by omega, by omega, ?_, ?_⟩ <;> rw [hloop]
        · intro k hik hk; omega
        · intro _; exact hdiv
      · have hloop : mandelLoop c (fuel + 1) (zseq c i) i =
            mandelLoop c fuel (zseq c (i + 1)) (i + 1) := by
          simp [mandelLoop, hdiv, zseq]
        obtain ⟨h1, h2, h3, h4⟩ := ih (i + 1)
        rw [hloop]
        refine ⟨by omega, by omega, ?_, ?_⟩
        · intro k hik hk
          rcases Nat.eq_or_lt_of_le hik with h | h
          · subst h
            exact lt_of_not_le hdiv
          · exact h3 k h hk
        · intro h
          exact h4 (by omega)

lemma mandelLoop_succ (c : ℚ × ℚ) (fuel : Nat) (z : ℚ × ℚ) (i : Nat) :
    mandelLoop c (fuel + 1) z i =
      if MBR_DIVERGE_THRESHOLD ≤ sqnorm z then i
      else mandelLoop c fuel (mstep c z) (i + 1) := rfl

lemma pixelCoord_0_767 : pixelCoord vp_default 0 767 = (-5/2, 1) := by
  norm_num [pixelCoord, vp_default, WIDTH, HEIGHT, Prod.ext_iff]

lemma escapeIndex_corner : escapeIndex (-5/2, 1) = 1 := by
  have h0 : ¬ MBR_DIVERGE_THRESHOLD ≤ sqnorm ((0 : ℚ), (0 : ℚ)) := by
    norm_num [sqnorm, MBR_DIVERGE_THRESHOLD]
  have hstep : mstep (-5/2, 1) ((0 : ℚ), (0 : ℚ)) = (-5/2, 1) := by
    norm_num [mstep, Prod.ext_iff]
  have h1 : MBR_DIVERGE_THRESHOLD ≤ sqnorm ((-5/2 : ℚ), (1 : ℚ)) := by
    norm_num [sqnorm, MBR_DIVERGE_THRESHOLD]
  show mandelLoop (-5/2, 1) (255 + 1) (0, 0) 0 = 1
  rw [mandelLoop_succ, if_neg h0, hstep]
  show mandelLoop (-5/2, 1) (254 + 1) (-5/2, 1) 1 = 1
  rw [mandelLoop_succ, if_pos h1]

lemma escapeIndex_pixel_0_767 : escapeIndex (pixelCoord vp_default 0 767) = 1 := by
  rw [pixelCoord_0_767, escapeIndex_corner]

/-- C2 counterexample: at the default viewport, pixel `(0, 767)` maps to
`c = (-2.5, 1)` and the loop exits with index `1`, not `0` as the claim's
"diverged at iteration 0" (0-indexed update count) states: the code checks
`zr²+zi² ≥ T` *before* each update, so the escape of `z_1 = c` is reported
with loop index `1`. -/
theorem C2_cex_pixel_0_767 :
    escapeIndex (pixelCoord vp_default 0 767) = 1 ∧
      pixelCoord vp_default 0 767 = (-5/2, 1) ∧ (1 : Nat) ≠ 0 :=
  ⟨escapeIndex_pixel_0_767, pixelCoord_0_767, by decide⟩

/-- C2 amended: the evaluator initializes `z = (0,0)` and iterates
`z_{n+1} = z_n² + c`, but checks `zr² + zi² ≥ T` *before* each update; the
reported index is the least `n` with `|z_n|² ≥ T` (capped at `M = 256`),
which is one more than the 0-indexed count of completed updates when the
escape happens.  In particular pixel `(0, 767)` of the default viewport maps
to `c = (-2.5, 1)` and is reported as diverged at index `1`. -/
theorem C2_escape_semantics :
    (∀ c : ℚ × ℚ, escapeIndex c ≤ MBR_MAX_ITERATIONS) ∧
      (∀ c : ℚ × ℚ, ∀ k, k < escapeIndex c →
        sqnorm (zseq c k) < MBR_DIVERGE_THRESHOLD) ∧
      (∀ c : ℚ × ℚ, escapeIndex c < MBR_MAX_ITERATIONS →
        MBR_DIVERGE_THRESHOLD ≤ sqnorm (zseq c (escapeIndex c))) ∧
      escapeIndex (pixelCoord vp_default 0 767) = 1 := by
  have hz : ∀ c : ℚ × ℚ, zseq c 0 = (0, 0) := fun _ => rfl
  refine ⟨?_, ?_, ?_, ?_⟩
  · intro c
    have h := (mandelLoop_spec c MBR_MAX_ITERATIONS 0).2.1
    rw [hz c] at h
    simpa [escapeIndex] using h
  · intro c k hk
    have h := (mandelLoop_spec c MBR_MAX_ITERATIONS 0).2.2.1
    rw [hz c] at h
    exact h k (Nat.zero_le k) hk
  · intro c hlt
    have h := (mandelLoop_spec c MBR_MAX_ITERATIONS 0).2.2.2
    rw [hz c] at h
    exact h (by simpa [escapeIndex] using hlt)
  · exact escapeIndex_pixel_0_767

/-- Witness for C2's amended theorem at the claim's concrete pixel. -/
theorem C2_escape_semantics_witness :
    escapeIndex (pixelCoord vp_default 0 767) ≤ MBR_MAX_ITERATIONS ∧
      sqnorm (zseq (pixelCoord vp_default 0 767) 0) < MBR_DIVERGE_THRESHOLD ∧
      escapeIndex (pixelCoord vp_default 0 767) = 1 :=
  ⟨C2_escape_semantics.1 (pixelCoord vp_default 0 767),
   C2_escape_semantics.2.1 (pixelCoord vp_default 0 767) 0
     (by rw [escapeIndex_pixel_0_767]; omega),
   C2_escape_semantics.2.2.2⟩

/-! ### Key handling: viewport update (part_000 lines 420-474)

`key_callback` snapshots the four bounds into `next_*`, computes
`hdiff = (right-left)/2`, `vdiff = (top-bottom)/2`, modifies the snapshot
according to the pressed key (an unrecognized key leaves the snapshot
untouched), and then commits all four bounds.  The five recognized keys are
modelled by an inductive; `other` stands for any other key code. -/

inductive Key where
  | left | right | up | down | space | other
deriving DecidableEq

def panZoom (key : Key) (vp : Viewport) : Viewport :=
  let hdiff := (vp.right - vp.left) / 2
  let vdiff := (vp.top - vp.bottom) / 2
  match key with
  | .left => ⟨vp.left - hdiff, vp.right - hdiff, vp.top, vp.bottom⟩
  | .right => ⟨vp.left + hdiff, vp.right + hdiff, vp.top, vp.bottom⟩
  | .up => ⟨vp.left, vp.right, vp.top + vdiff, vp.bottom + vdiff⟩
  | .down => ⟨vp.left, vp.right, vp.top - vdiff, vp.bottom - vdiff⟩
  | .space =>
      ⟨vp.left + hdiff / 2, vp.right - hdiff / 2,
       vp.top - vdiff / 2, vp.bottom + vdiff / 2⟩
  | .other => vp

/-- C6: for every viewport with `left < right` and `bottom < top`, each pan
shifts the bounds by half the current width (left/right keys) or half the
current height (up/down keys) in its cardinal direction, preserving width
and height exactly; zoom-in (space) moves all four bounds inward by a
quarter of the current width/height, so the new width and height are half
the old ones and the new rectangle is centered within the old one. -/
theorem C6_pan_zoom_algebra (vp : Viewport)
    (hlr : vp.left < vp.right) (hbt : vp.bottom < vp.top) :
    (panZoom .left vp =
        ⟨vp.left - (vp.right - vp.left) / 2, vp.right - (vp.right - vp.left) / 2,
         vp.top, vp.bottom⟩) ∧
      (panZoom .right vp =
        ⟨vp.left + (vp.right - vp.left) / 2, vp.right + (vp.right - vp.left) / 2,
         vp.top, vp.bottom⟩) ∧
      (panZoom .up vp =
        ⟨vp.left, vp.right, vp.top + (vp.top - vp.bottom) / 2,
         vp.bottom + (vp.top - vp.bottom) / 2⟩) ∧
      (panZoom .down vp =
        ⟨vp.left, vp.right, vp.top - (vp.top - vp.bottom) / 2,
         vp.bottom - (vp.top - vp.bottom) / 2⟩) ∧
      (∀ k, k ≠ Key.space → k ≠ Key.other →
        (panZoom k vp).right - (panZoom k vp).left = vp.right - vp.left ∧
          (panZoom k vp).top - (panZoom k vp).bottom = vp.top - vp.bottom) ∧
      (panZoom .space vp =
        ⟨vp.left + (vp.right - vp.left) / 4, vp.right - (vp.right - vp.left) / 4,
         vp.top - (vp.top - vp.bottom) / 4, vp.bottom + (vp.top - vp.bottom) / 4⟩) ∧
      ((panZoom .space vp).right - (panZoom .space vp).left =
        (vp.right - vp.left) / 2) ∧
      ((panZoom .space vp).top - (panZoom .space vp).bottom =
        (vp.top - vp.bottom) / 2) ∧
      ((panZoom .space vp).left + (panZoom .space vp).right =
        vp.left + vp.right) ∧
      ((panZoom .space vp).bottom + (panZoom .space vp).top =
        vp.bottom + vp.top) := by
  refine ⟨?_, ?_, ?_, ?_, ?_, ?_, ?_, ?_, ?_, ?_⟩
  · simp only [panZoom]
  · simp only [panZoom]
  · simp only [panZoom]
  · simp only [panZoom]
  · intro k hk1 hk2
    cases k <;> simp only [panZoom] <;> first
      | exact absurd rfl hk1
      | exact absurd rfl hk2
      | exact ⟨by ring, by ring⟩
  · simp only [panZoom, Viewport.mk.injEq]
    refine ⟨by ring, by ring, by ring, by ring⟩
  · simp only [panZoom]; ring
  · simp only [panZoom]; ring
  · simp only [panZoom]; ring
  · simp only [panZoom]; ring

/-- Witness for C6 at the default viewport. -/
theorem C6_pan_zoom_algebra_witness :
    (panZoom .space vp_default).right - (panZoom .space vp_default).left =
        (vp_default.right - vp_default.left) / 2 ∧
      (panZoom .left vp_default).right - (panZoom .left vp_default).left =
        vp_default.right - vp_default.left :=
  ⟨(C6_pan_zoom_algebra vp_default (by norm_num [vp_default])
      (by norm_num [vp_default])).2.2.2.2.2.2.1,
   ((C6_pan_zoom_algebra vp_default (by norm_num [vp_default])
      (by norm_num [vp_default])).2.2.2.2.1 .left (by decide) (by decide)).1⟩

/-! ### Order of state-changing operations in a restart

`key_callback` (lines 420-484) commits the new bounds, then calls
`flush_pixels(pix_white)` (line 482), then `start_mandelbrot()` (line 483).
`start_mandelbrot` (lines 279-317) first walks the slot table cancelling
every live worker (lines 283-291) and then dispatches one new worker per
slot (lines 296-316).  The trace of these state-changing operations is
modelled as a list; `live` gives the contents of `live_threads[]` when the
handler runs. -/

inductive EngineOp where
  | setBounds
  | resetRaster
  | cancelWorker (i : Nat)
  | spawnWorker (i : Nat)
deriving DecidableEq

def isCancel : EngineOp → Bool
  | .cancelWorker _ => true
  | _ => false

def isSpawn : EngineOp → Bool
  | .spawnWorker _ => true
  | _ => false

def cancel_ops (live : Fin THR_MAX_ACTIVE → Bool) : List EngineOp :=
  ((List.finRange THR_MAX_ACTIVE).filter (fun i => live i)).map
    (fun i => .cancelWorker i.1)

def spawn_ops : List EngineOp :=
  (List.finRange THR_MAX_ACTIVE).map (fun i => .spawnWorker i.1)

def start_mandelbrot_ops (live : Fin THR_MAX_ACTIVE → Bool) : List EngineOp :=
  cancel_ops live ++ spawn_ops

def key_callback_ops (live : Fin THR_MAX_ACTIVE → Bool) : List EngineOp :=
  [.setBounds, .resetRaster] ++ start_mandelbrot_ops live

/-- C3 counterexample: with all four worker slots live, the restart trace of
`key_callback` resets the raster (position 1) *before* the first worker
cancellation (position 2); no cancellation precedes the reset.  This
refutes the claimed order "cancel every live worker ... then reset the
entire raster buffer". -/
theorem C3_cex_reset_before_cancel :
    key_callback_ops (fun _ => true) =
      [.setBounds, .resetRaster,
       .cancelWorker 0, .cancelWorker 1, .cancelWorker 2, .cancelWorker 3,
       .spawnWorker 0, .spawnWorker 1, .spawnWorker 2, .spawnWorker 3] ∧
      (key_callback_ops (fun _ => true)).getD 1 EngineOp.setBounds =
        EngineOp.resetRaster ∧
      isCancel ((key_callback_ops (fun _ => true)).getD 0 EngineOp.setBounds) = false ∧
      isCancel ((key_callback_ops (fun _ => true)).getD 1 EngineOp.setBounds) = false ∧
      isCancel ((key_callback_ops (fun _ => true)).getD 2 EngineOp.setBounds) = true := by
  decide

/-- C3 amended: the viewport-changing restart first commits the bounds, then
resets the entire raster to `WHITE`, then cancels every live worker, then
dispatches the new workers: in every trace the raster reset sits at
position 1, every cancellation comes strictly after it, and every
cancellation precedes every new dispatch.  (The raster reset therefore
happens while previously dispatched workers may still be live.) -/
theorem C3_restart_order :
    ∀ live : Fin THR_MAX_ACTIVE → Bool,
      (key_callback_ops live).getD 1 EngineOp.setBounds = EngineOp.resetRaster ∧
        (∀ j, j < (key_callback_ops live).length →
          isCancel ((key_callback_ops live).getD j EngineOp.setBounds) = true →
            1 < j ∧
              ∀ j', j' < (key_callback_ops live).length →
                isSpawn ((key_callback_ops live).getD j' EngineOp.setBounds) = true →
                  j < j') := by
  decide

/-- Witness for C3's amended theorem: all slots live, cancellation of slot 0
at position 2, dispatch of slot 0 at position 6. -/
theorem C3_restart_order_witness :
    (key_callback_ops (fun _ => true)).getD 1 EngineOp.setBounds =
        EngineOp.resetRaster ∧
      (1 < 2 ∧ 2 < 6) :=
  ⟨(C3_restart_order (fun _ => true)).1,
   ((C3_restart_order (fun _ => true)).2 2 (by decide) (by decide)).1,
   ((C3_restart_order (fun _ => true)).2 2 (by decide) (by decide)).2 6
     (by decide) (by decide)⟩

/-! ### `flush_pixels` and the raster

The raster `pixbuf` is a `WIDTH*HEIGHT` array of pixels, addressed by the
flat index `y * WIDTH + x`; modelled as a total function from `Nat`. -/

def Raster : Type := Nat → pixel

def pixIndex (x y : Nat) : Nat := y * WIDTH + x

/-- Model of `flush_pixels` (lines 263-267): set every pixel of the buffer
to `c`. -/
def flush_pixels (c : pixel) : Raster := fun _ => c

/-- C9: a key press whose key is none of the five recognized navigation
commands leaves all four viewport bounds unchanged, yet the handler still
resets every pixel of the raster to the `WHITE` sentinel and restarts the
computation: the trace contains the raster reset, a cancellation of every
live worker, and a dispatch of all four workers. -/
theorem C9_unrecognized_key_restarts :
    ∀ (vp : Viewport) (live : Fin THR_MAX_ACTIVE → Bool),
      panZoom .other vp = vp ∧
        (∀ n, flush_pixels pix_white n = pix_white) ∧
        EngineOp.resetRaster ∈ key_callback_ops live ∧
        (∀ i : Fin THR_MAX_ACTIVE, EngineOp.spawnWorker i.1 ∈ key_callback_ops live) ∧
        (∀ i : Fin THR_MAX_ACTIVE, live i = true →
          EngineOp.cancelWorker i.1 ∈ key_callback_ops live) := by
  intro vp live
  refine ⟨rfl, fun _ => rfl, ?_, ?_, ?_⟩
  · simp [key_callback_ops]
  · intro i
    show _ ∈ [EngineOp.setBounds, EngineOp.resetRaster] ++
      (cancel_ops live ++ spawn_ops)
    exact List.mem_append_right _
      (List.mem_append_right _ (List.mem_map_of_mem _ (List.mem_finRange i)))
  · intro i hi
    show _ ∈ [EngineOp.setBounds, EngineOp.resetRaster] ++
      (cancel_ops live ++ spawn_ops)
    refine List.mem_append_right _ (List.mem_append_left _ ?_)
    exact List.mem_map_of_mem _ (List.mem_filter.mpr ⟨List.mem_finRange i, hi⟩)

/-- Witness for C9 at the default viewport with all slots live, slot 0. -/
theorem C9_unrecognized_key_restarts_witness :
    panZoom .other vp_default = vp_default ∧
      EngineOp.cancelWorker (⟨0, by decide⟩ : Fin THR_MAX_ACTIVE).1 ∈
        key_callback_ops (fun _ => true) :=
  ⟨(C9_unrecognized_key_restarts vp_default (fun _ => true)).1,
   (C9_unrecognized_key_restarts vp_default (fun _ => true)).2.2.2.2
     ⟨0, by decide⟩ rfl⟩

/-! ### The worker scan (`compute_mandelbrot_sub`, lines 319-394)

The worker walks its region row-major, `y` from `bottom` to `top`, `x` from
`left` to `right`.  For each pixel it computes the escape color, then under
the raster lock compares the stored pixel with `pix_white` (`memcmp`,
line 375): if it differs, the function returns — abandoning the whole
remaining scan; otherwise it stores `get_color(i)` and continues.  The
per-pixel color computation is abstracted as `eval x y`; the scan itself is
`runScan` over the region's coordinate list. -/

def updatePix (ras : Raster) (c : Nat × Nat) (v : pixel) : Raster :=
  fun n => if n = pixIndex c.1 c.2 then v else ras n

/-- Coordinates of the region `[left,right] × [bottom,top]` in scan order. -/
def scanCoords (left right top bottom : Nat) : List (Nat × Nat) :=
  (List.range (top + 1 - bottom)).flatMap
    (fun dy => (List.range (right + 1 - left)).map (fun dx => (left + dx, bottom + dy)))

def runScan (eval : Nat → Nat → pixel) : List (Nat × Nat) → Raster → Raster
  | [], ras => ras
  | c :: rest, ras =>
      if ras (pixIndex c.1 c.2) = pix_white then
        runScan eval rest (updatePix ras c (eval c.1 c.2))
      else ras

def compute_mandelbrot_sub (eval : Nat → Nat → pixel)
    (left right top bottom : Nat) (ras : Raster) : Raster :=
  runScan eval (scanCoords left right top bottom) ras

/-- The unconditional write of a list of pixels, for describing what a scan
that abandons at some pixel has written up to that point. -/
def writeAll (eval : Nat → Nat → pixel) : List (Nat × Nat) → Raster → Raster
  | [], ras => ras
  | c :: rest, ras => writeAll eval rest (updatePix ras c (eval c.1 c.2))

lemma writeAll_outside (eval : Nat → Nat → pixel) :
    ∀ (cs : List (Nat × Nat)) (ras : Raster) (n : Nat),
      (∀ c ∈ cs, pixIndex c.1 c.2 ≠ n) → writeAll eval cs ras n = ras n := by
  intro cs
  induction cs with
  | nil => intro ras n _; rfl
  | cons c rest ih =>
      intro ras n h
      show writeAll eval rest (updatePix ras c (eval c.1 c.2)) n = ras n
      rw [ih _ n (fun d hd => h d (List.mem_cons_of_mem c hd))]
      simp only [updatePix]
      rw [if_neg (fun hn => h c (List.mem_cons_self c rest) hn.symm)]

lemma runScan_outside (eval : Nat → Nat → pixel) :
    ∀ (cs : List (Nat × Nat)) (ras : Raster) (n : Nat),
      (∀ c ∈ cs, pixIndex c.1 c.2 ≠ n) → runScan eval cs ras n = ras n := by
  intro cs
  induction cs with
  | nil => intro ras n _; rfl
  | cons c rest ih =>
      intro ras n h
      show (if ras (pixIndex c.1 c.2) = pix_white then
          runScan eval rest (updatePix ras c (eval c.1 c.2)) else ras) n = ras n
      by_cases hw : ras (pixIndex c.1 c.2) = pix_white
      · rw [if_pos hw, ih _ n (fun d hd => h d (List.mem_cons_of_mem c hd))]
        simp only [updatePix]
        rw [if_neg (fun hn => h c (List.mem_cons_self c rest) hn.symm)]
      · rw [if_neg hw]

lemma runScan_abandons (eval : Nat → Nat → pixel) :
    ∀ (pre : List (Nat × Nat)) (c : Nat × Nat) (post : List (Nat × Nat))
      (ras : Raster),
      ((pre ++ c :: post).map (fun q => pixIndex q.1 q.2)).Nodup →
      (∀ q ∈ pre, ras (pixIndex q.1 q.2) = pix_white) →
      ras (pixIndex c.1 c.2) ≠ pix_white →
      runScan eval (pre ++ c :: post) ras = writeAll eval pre ras := by
  intro pre
  induction pre with
  | nil =>
      intro c post ras _ _ hc
      show (if ras (pixIndex c.1 c.2) = pix_white then _ else ras) = ras
      rw [if_neg hc]
  | cons q pre ih =>
      intro c post ras hnodup hpre hc
      show (if ras (pixIndex q.1 q.2) = pix_white then
          runScan eval (pre ++ c :: post) (updatePix ras q (eval q.1 q.2))
        else ras) = writeAll eval (q :: pre) ras
      rw [if_pos (hpre q (List.mem_cons_self q pre))]
      have hqnot : pixIndex q.1 q.2 ∉
          ((pre ++ c :: post).map (fun d => pixIndex d.1 d.2)) := by
        have := hnodup
        simp only [List.cons_append, List.map_cons, List.nodup_cons] at this
        exact this.1
      have hupd : ∀ d, d ∈ pre ∨ d = c →
          updatePix ras q (eval q.1 q.2) (pixIndex d.1 d.2) =
            ras (pixIndex d.1 d.2) := by
        intro d hd
        simp only [updatePix]
        rw [if_neg]
        intro hn
        apply hqnot
        rw [← hn]
        rcases hd with hd | hd
        · exact List.mem_map_of_mem _ (List.mem_append_left _ hd)
        · subst hd
          exact List.mem_map_of_mem _
            (List.mem_append_right _ (List.mem_cons_self _ _))
      rw [ih c post (updatePix ras q (eval q.1 q.2))
        (by
          have := hnodup
          simp only [List.cons_append, List.map_cons, List.nodup_cons] at this
          exact this.2)
        (fun d hd => by
          rw [hupd d (Or.inl hd)]
          exact hpre d (List.mem_cons_of_mem q hd))
        (by
          rw [hupd c (Or.inr rfl)]
          exact hc)]
      rfl

/-- C7: when the scan of `compute_mandelbrot_sub` reaches a pixel whose
stored value is not the `WHITE` sentinel (all previously scanned pixels of
the region having been unclaimed), the worker writes nothing there and
terminates its entire remaining scan: the resulting raster is exactly the
input raster plus the writes of the already-scanned prefix, and every pixel
from the conflicting one onward keeps its prior value. -/
theorem C7_abandon_on_claimed (eval : Nat → Nat → pixel)
    (pre : List (Nat × Nat)) (c : Nat × Nat) (post : List (Nat × Nat))
    (ras : Raster)
    (hnodup : ((pre ++ c :: post).map (fun q => pixIndex q.1 q.2)).Nodup)
    (hpre : ∀ q ∈ pre, ras (pixIndex q.1 q.2) = pix_white)
    (hc : ras (pixIndex c.1 c.2) ≠ pix_white) :
    runScan eval (pre ++ c :: post) ras = writeAll eval pre ras ∧
      ∀ q, q ∈ c :: post →
        runScan eval (pre ++ c :: post) ras (pixIndex q.1 q.2) =
          ras (pixIndex q.1 q.2) := by
  have hmain := runScan_abandons eval pre c post ras hnodup hpre hc
  refine ⟨hmain, ?_⟩
  intro q hq
  rw [hmain]
  apply writeAll_outside
  intro d hd hn
  rcases List.nodup_append.mp (by simpa using hnodup) with ⟨_, _, hdisj⟩
  exact hdisj (List.mem_map_of_mem _ hd)
    (by rw [hn]; simpa using List.mem_map_of_mem (fun d => pixIndex d.1 d.2) hq)

/-- A raster in which pixel `(1, 0)` is already painted black and everything
else is the sentinel, used as the witness input for C7. -/
def claimedRaster : Raster := fun n => if n = 1 then pix_black else pix_white

/-- Witness for C7: scanning the first row of the region `[0,2] × [0,0]`
over `claimedRaster` abandons at `(1, 0)` after writing only `(0, 0)`. -/
theorem C7_abandon_on_claimed_witness :
    scanCoords 0 2 0 0 = [(0, 0), (1, 0), (2, 0)] ∧
      runScan (fun _ _ => pix_black) ([(0, 0)] ++ (1, 0) :: [(2, 0)]) claimedRaster =
        writeAll (fun _ _ => pix_black) [(0, 0)] claimedRaster ∧
      runScan (fun _ _ => pix_black) ([(0, 0)] ++ (1, 0) :: [(2, 0)]) claimedRaster
        (pixIndex 2 0) = claimedRaster (pixIndex 2 0) :=
  ⟨by decide,
   (C7_abandon_on_claimed (fun _ _ => pix_black) [(0, 0)] (1, 0) [(2, 0)]
      claimedRaster (by decide)
      (by
        intro q hq
        simp only [List.mem_singleton] at hq
        subst hq
        rfl)
      (by decide)).1,
   (C7_abandon_on_claimed (fun _ _ => pix_black) [(0, 0)] (1, 0) [(2, 0)]
      claimedRaster (by decide)
      (by
        intro q hq
        simp only [List.mem_singleton] at hq
        subst hq
        rfl)
      (by decide)).2 (2, 0) (by decide)⟩

/-! ### The fixed partition of `start_mandelbrot` (lines 296-316)

For each slot `i < THR_MAX_ACTIVE` the dispatched region is
`left = i * (WIDTH / THR_MAX_ACTIVE)`,
`right = (i+1) * (WIDTH / THR_MAX_ACTIVE) - 1`,
`top = HEIGHT - 1`, `bottom = 0` (C integer division; all values are
non-negative, so `Nat` arithmetic coincides). -/

structure mandelbrot_params where
  left : Nat
  right : Nat
  top : Nat
  bottom : Nat
  thr_index : Nat
deriving DecidableEq

def stripParams (i : Nat) : mandelbrot_params :=
  ⟨i * (WIDTH / THR_MAX_ACTIVE), (i + 1) * (WIDTH / THR_MAX_ACTIVE) - 1,
   HEIGHT - 1, 0, i⟩

def start_mandelbrot_strips : List mandelbrot_params :=
  (List.range THR_MAX_ACTIVE).map stripParams

/-- A full pass: every dispatched worker runs its scan to completion (the
workers write to disjoint columns, so the concurrent execution is modelled
by running them in sequence). -/
def runWorkers (eval : Nat → Nat → pixel) (ps : List mandelbrot_params)
    (ras : Raster) : Raster :=
  ps.foldl
    (fun r p => compute_mandelbrot_sub eval p.left p.right p.top p.bottom r) ras

lemma scanCoords_mem_x {left right top bottom : Nat} {c : Nat × Nat}
    (h : c ∈ scanCoords left right top bottom) :
    left ≤ c.1 ∧ c.1 ≤ right := by
  simp only [scanCoords, List.mem_flatMap, List.mem_map, List.mem_range] at h
  obtain ⟨dy, _, dx, hdx, rfl⟩ := h
  omega

lemma runWorkers_outside (eval : Nat → Nat → pixel) :
    ∀ (ps : List mandelbrot_params) (ras : Raster) (n : Nat),
      (∀ p ∈ ps, ∀ c ∈ scanCoords p.left p.right p.top p.bottom,
        pixIndex c.1 c.2 ≠ n) →
      runWorkers eval ps ras n = ras n := by
  intro ps
  induction ps with
  | nil => intro ras n _; rfl
  | cons p rest ih =>
      intro ras n h
      show runWorkers eval rest
        (compute_mandelbrot_sub eval p.left p.right p.top p.bottom ras) n = ras n
      rw [ih _ n (fun q hq => h q (List.mem_cons_of_mem p hq))]
      exact runScan_outside eval _ ras n (h p (List.mem_cons_self p rest))

lemma strips_right_le : ∀ p ∈ start_mandelbrot_strips, p.right ≤ 1363 := by
  decide

/-- C1 (code bug): the four dispatched strips are
`[0,340], [341,681], [682,1022], [1023,1363]` — `WIDTH / THR_MAX_ACTIVE`
truncates `1366/4` to `341`, so columns `1364` and `1365` belong to no
strip.  After a restart in which every worker runs to completion, any pixel
in column `1364` (and `1365`) of the freshly reset raster still equals the
`WHITE` sentinel, for every possible per-pixel color function: the claimed
exact cover (and the "no pixel still equals WHITE" consequence) fails. -/
theorem C1_partition_gap (eval : Nat → Nat → pixel) (y : Nat)
    (hy : y < HEIGHT) :
    runWorkers eval start_mandelbrot_strips (flush_pixels pix_white)
        (pixIndex 1364 y) = pix_white ∧
      ∀ p ∈ start_mandelbrot_strips, ¬ (p.left ≤ 1364 ∧ 1364 ≤ p.right) := by
  constructor
  · rw [runWorkers_outside]
    · rfl
    · intro p hp c hc hn
      have hx := scanCoords_mem_x hc
      have hr := strips_right_le p hp
      have : c.2 * WIDTH + c.1 = y * WIDTH + 1364 := hn
      simp only [WIDTH] at this
      omega
  · intro p hp hmem
    have hr := strips_right_le p hp
    omega

/-- Witness for C1 at row `y = 0`: pixel `(1364, 0)` is untouched by a full
pass and lies in no strip. -/
theorem C1_partition_gap_witness :
    runWorkers (fun _ _ => pix_black) start_mandelbrot_strips
        (flush_pixels pix_white) (pixIndex 1364 0) = pix_white ∧
      ∀ p ∈ start_mandelbrot_strips, ¬ (p.left ≤ 1364 ∧ 1364 ≤ p.right) :=
  C1_partition_gap (fun _ _ => pix_black) 0 (by decide)

/-! ### Dispatch failure (`start_mandelbrot`, lines 296-316)

Each loop pass allocates the strip parameters, marks the slot live, and
calls `pthread_create`; a non-zero return makes the program print a message
and `exit(10)`.  `spawnOk i` abstracts whether creating the thread for slot
`i` succeeds. -/

inductive DispatchOutcome where
  | dispatched (ps : List mandelbrot_params)
  | exited (code : Nat)
deriving DecidableEq

def dispatch_go (spawnOk : Nat → Bool) :
    List Nat → List mandelbrot_params → DispatchOutcome
  | [], acc => .dispatched acc.reverse
  | i :: rest, acc =>
      if spawnOk i then dispatch_go spawnOk rest (stripParams i :: acc)
      else .exited 10

def start_mandelbrot_dispatch (spawnOk : Nat → Bool) : DispatchOutcome :=
  dispatch_go spawnOk (List.range THR_MAX_ACTIVE) []

/-- C8: if spawning any of the four worker threads fails, the whole dispatch
is fatal: `start_mandelbrot` terminates the process with exit code 10 and
never returns a (partially) dispatched pool. -/
theorem C8_spawn_failure_fatal (spawnOk : Nat → Bool)
    (hfail : ∃ i, i < THR_MAX_ACTIVE ∧ spawnOk i = false) :
    start_mandelbrot_dispatch spawnOk = .exited 10 ∧
      ∀ ps, start_mandelbrot_dispatch spawnOk ≠ .dispatched ps := by
  have hmain : start_mandelbrot_dispatch spawnOk = .exited 10 := by
    obtain ⟨i, hi, hbad⟩ := hfail
    show dispatch_go spawnOk [0, 1, 2, 3] [] = .exited 10
    cases h0 : spawnOk 0 <;> cases h1 : spawnOk 1 <;>
      cases h2 : spawnOk 2 <;> cases h3 : spawnOk 3 <;>
      simp_all [dispatch_go] <;>
      (simp only [THR_MAX_ACTIVE] at hi; interval_cases i <;> simp_all)
  exact ⟨hmain, fun ps h => by rw [hmain] at h; exact DispatchOutcome.noConfusion h⟩

/-- Spawn oracle for the witness: creating the thread for slot 2 fails. -/
def spawnFailsAt2 : Nat → Bool := fun i => decide (i ≠ 2)

/-- Witness for C8 with the spawn of slot 2 failing. -/
theorem C8_spawn_failure_fatal_witness :
    start_mandelbrot_dispatch spawnFailsAt2 = .exited 10 ∧
      start_mandelbrot_dispatch spawnFailsAt2 ≠
        .dispatched [stripParams 0, stripParams 1, stripParams 2, stripParams 3] :=
  ⟨(C8_spawn_failure_fatal spawnFailsAt2 ⟨2, by decide, by decide⟩).1,
   (C8_spawn_failure_fatal spawnFailsAt2 ⟨2, by decide, by decide⟩).2 _⟩

/-! ### The slot-liveness table and live count

`live_threads[THR_MAX_ACTIVE]` and `num_live_threads` (a C `int`), guarded
by `live_threads_mutex`.  Each critical section of the program that touches
them is one atomic step:

* dispatch (lines 305-308): `live_threads[i] = 1; num_live_threads++` — the
  code only dispatches into a slot just freed by the preceding cancel loop,
  so the step carries the guard `live_threads i = false`;
* worker completion (lines 247-252): `live_threads[i] = 0;
  num_live_threads--` — executed by a live (dispatched, not cancelled)
  worker, hence the guard `live_threads i = true`;
* cancellation, both on restart (lines 283-291) and on shutdown
  (lines 206-216): `if (live_threads[i]) { ...; num_live_threads--;
  live_threads[i] = 0; }` — the flag test is part of the critical section,
  giving the two unconditional-effect constructors below. -/

structure PoolState where
  live_threads : Fin THR_MAX_ACTIVE → Bool
  num_live_threads : Int

/-- Initial state: `num_live_threads = 0` and all slots free (`main`,
lines 96, 108-110). -/
def initPool : PoolState := ⟨fun _ => false, 0⟩

/-- The number of set flags in the slot table. -/
def countLive (f : Fin THR_MAX_ACTIVE → Bool) : Int :=
  ∑ i : Fin THR_MAX_ACTIVE, (if f i then (1 : Int) else 0)

inductive PoolStep : PoolState → PoolState → Prop
  | dispatch (s : PoolState) (i : Fin THR_MAX_ACTIVE)
      (h : s.live_threads i = false) :
      PoolStep s ⟨Function.update s.live_threads i true, s.num_live_threads + 1⟩
  | complete (s : PoolState) (i : Fin THR_MAX_ACTIVE)
      (h : s.live_threads i = true) :
      PoolStep s ⟨Function.update s.live_threads i false, s.num_live_threads - 1⟩
  | cancelLive (s : PoolState) (i : Fin THR_MAX_ACTIVE)
      (h : s.live_threads i = true) :
      PoolStep s ⟨Function.update s.live_threads i false, s.num_live_threads - 1⟩
  | cancelDead (s : PoolState) (i : Fin THR_MAX_ACTIVE)
      (h : s.live_threads i = false) :
      PoolStep s s

inductive PoolReachable : PoolState → Prop
  | init : PoolReachable initPool
  | step {s s' : PoolState} : PoolReachable s → PoolStep s s' → PoolReachable s'

lemma countLive_update (f : Fin THR_MAX_ACTIVE → Bool) (j : Fin THR_MAX_ACTIVE)
    (v : Bool) :
    countLive (Function.update f j v) =
      countLive f - (if f j then 1 else 0) + (if v then 1 else 0) := by
  have hfun : (fun i => if Function.update f j v i then (1 : Int) else 0) =
      Function.update (fun i => if f i then (1 : Int) else 0) j
        (if v then 1 else 0) := by
    funext i
    by_cases hij : i = j
    · subst hij; simp [Function.update]
    · simp [Function.update, hij]
  have hsplit : countLive f =
      (if f j then (1 : Int) else 0) +
        ∑ i ∈ Finset.univ \ {j}, (if f i then (1 : Int) else 0) :=
    Finset.sum_eq_add_sum_diff_singleton (Finset.mem_univ j) _
  calc countLive (Function.update f j v)
      = ∑ i : Fin THR_MAX_ACTIVE,
          Function.update (fun i => if f i then (1 : Int) else 0) j
            (if v then 1 else 0) i := by
        rw [countLive, hfun]
    _ = (if v then (1 : Int) else 0) +
          ∑ i ∈ Finset.univ \ {j}, (if f i then (1 : Int) else 0) := by
        rw [Finset.sum_update_of_mem (Finset.mem_univ j)]
    _ = countLive f - (if f j then 1 else 0) + (if v then 1 else 0) := by
        rw [hsplit]; ring

/-- C10: in every reachable state of the pool, the live-worker count equals
the number of set flags in the slot-liveness table: each operation that
sets or clears a flag (dispatch, worker completion, cancellation on restart
or shutdown) adjusts the count in the same critical section, so the
equality is an invariant. -/
theorem C10_live_count_invariant (s : PoolState) (h : PoolReachable s) :
    s.num_live_threads = countLive s.live_threads := by
  induction h with
  | init => simp [initPool, countLive]
  | step _ hstep ih =>
      cases hstep with
      | dispatch i hi => show _ + 1 = _; rw [countLive_update, hi, ih]; norm_num
      | complete i hi => show _ - 1 = _; rw [countLive_update, hi, ih]; norm_num
      | cancelLive i hi => show _ - 1 = _; rw [countLive_update, hi, ih]; norm_num
      | cancelDead i hi => exact ih

/-- Witness for C10 at the initial state. -/
theorem C10_live_count_invariant_witness :
    initPool.num_live_threads = countLive initPool.live_threads :=
  C10_live_count_invariant initPool PoolReachable.init

end MiniMandelbrot
